import Mathlib

/-!
Verification of the physics / window-collision engine of the DesktopCharacter
repository.  The Python sources are shallowly embedded:

* `subtractIntervals` (PhysicsObject.py, lines 32-48) over `ℚ`;
* `screenBordersCollision` / `windowsCollision` (PhysicsObject.py) polymorphic
  over a linear ordered field, so that they can be run at `ℚ` (decidable,
  executable) and composed into `applyPhysics` at `ℝ` (which needs `Real.sqrt`
  for the air-resistance term);
* `getCollisionBordersGroups` (PhysicsObject.py, lines 115-152): the source
  iterates the `DesktopInteractionManager.windows` dict itself, receiving
  integer keys, so on a nonempty dict it raises `AttributeError`; the
  embedding returns an `Option`, with the unreachable loop body over the
  dict's values modelled separately as `getCollisionBordersGroupsOnValues`;
* `updateAllWindowsList` (DesktopInteractionManager.py) as an association-list
  model of the `windows` dict.

Intervals `(a, b)` are given half-open point semantics `[a, b)`.
-/

/-- Membership of a point in the union of a list of half-open intervals. -/
def covers (L : List (ℚ × ℚ)) (x : ℚ) : Prop :=
  ∃ p ∈ L, p.1 ≤ x ∧ x < p.2

instance coversDecidable (L : List (ℚ × ℚ)) (x : ℚ) : Decidable (covers L x) := by
  unfold covers; infer_instance

/-- Inner loop of `subtractIntervals`: remove the cut `[sx, ex)` from every
interval in the working list, mirroring PhysicsObject.py lines 34-47. -/
def removeOverlap (sx ex : ℚ) : List (ℚ × ℚ) → List (ℚ × ℚ)
  | [] => []
  | (ix, iy) :: rest =>
    if ex ≤ ix ∨ sx ≥ iy then
      (ix, iy) :: removeOverlap sx ex rest
    else
      (if sx > ix then [(ix, sx)] else []) ++
      (if ex < iy then [(ex, iy)] else []) ++
      removeOverlap sx ex rest

/-- `subtractIntervals` from PhysicsObject.py lines 32-48: start from the base
interval and successively remove every cut. -/
def subtractIntervals (base_start base_end : ℚ) (subtracts : List (ℚ × ℚ)) :
    List (ℚ × ℚ) :=
  subtracts.foldl (fun intervals c => removeOverlap c.1 c.2 intervals)
    [(base_start, base_end)]

example : subtractIntervals 0 10 [(2, 4), (6, 8)] = [(0, 2), (4, 6), (8, 10)] := by
  decide

example : subtractIntervals 0 10 [] = [(0, 10)] := by decide

example : subtractIntervals 0 10 [(-5, 15)] = [] := by decide

example : subtractIntervals 0 10 [(3, 7), (5, 9)] = [(0, 3), (9, 10)] := by decide

example : subtractIntervals 0 10 [(5, 5)] = [(0, 5), (5, 10)] := by decide

theorem covers_nil (x : ℚ) : ¬ covers [] x := by
  rintro ⟨p, hp, -⟩; exact absurd hp (List.not_mem_nil p)

theorem covers_cons {p : ℚ × ℚ} {L : List (ℚ × ℚ)} {x : ℚ} :
    covers (p :: L) x ↔ (p.1 ≤ x ∧ x < p.2) ∨ covers L x := by
  constructor
  · rintro ⟨q, hq, hx⟩
    rcases List.mem_cons.mp hq with h | h
    · exact Or.inl (h ▸ hx)
    · exact Or.inr ⟨q, h, hx⟩
  · rintro (h | ⟨q, hq, hx⟩)
    · exact ⟨p, List.mem_cons_self _ _, h⟩
    · exact ⟨q, List.mem_cons_of_mem _ hq, hx⟩

theorem covers_append {L₁ L₂ : List (ℚ × ℚ)} {x : ℚ} :
    covers (L₁ ++ L₂) x ↔ covers L₁ x ∨ covers L₂ x := by
  constructor
  · rintro ⟨q, hq, hx⟩
    rcases List.mem_append.mp hq with h | h
    · exact Or.inl ⟨q, h, hx⟩
    · exact Or.inr ⟨q, h, hx⟩
  · rintro (⟨q, hq, hx⟩ | ⟨q, hq, hx⟩)
    · exact ⟨q, List.mem_append_left _ hq, hx⟩
    · exact ⟨q, List.mem_append_right _ hq, hx⟩

/-- One pass of the cut `[sx, ex)` removes exactly the points of `[sx, ex)`
from the covered set. -/
theorem covers_removeOverlap (sx ex : ℚ) (L : List (ℚ × ℚ)) (x : ℚ) :
    covers (removeOverlap sx ex L) x ↔ covers L x ∧ ¬ (sx ≤ x ∧ x < ex) := by
  induction L with
  | nil => simp [removeOverlap, covers_nil x]
  | cons p rest ih =>
    obtain ⟨ix, iy⟩ := p
    by_cases hno : ex ≤ ix ∨ sx ≥ iy
    · rw [show removeOverlap sx ex ((ix, iy) :: rest)
          = (ix, iy) :: removeOverlap sx ex rest by simp [removeOverlap, hno]]
      rw [covers_cons, covers_cons, ih]
      constructor
      · rintro (h | ⟨hc, hnc⟩)
        · refine ⟨Or.inl h, ?_⟩
          rintro ⟨h₁, h₂⟩
          rcases hno with h' | h'
          · exact absurd (lt_of_lt_of_le h₂ h') (not_lt.mpr h.1)
          · exact absurd (lt_of_le_of_lt h₁ h.2) (not_lt.mpr h')
        · exact ⟨Or.inr hc, hnc⟩
      · rintro ⟨h | hc, hnc⟩
        · exact Or.inl h
        · exact Or.inr ⟨hc, hnc⟩
    · rw [show removeOverlap sx ex ((ix, iy) :: rest)
          = (if sx > ix then [(ix, sx)] else []) ++
            (if ex < iy then [(ex, iy)] else []) ++
            removeOverlap sx ex rest by simp [removeOverlap, hno]]
      push_neg at hno
      obtain ⟨h₁, h₂⟩ := hno
      rw [covers_append, covers_append, ih, covers_cons]
      constructor
      · rintro ((hl | hr) | ⟨hc, hnc⟩)
        · by_cases hsx : sx > ix
          · simp only [if_pos hsx] at hl
            rcases covers_cons.mp hl with ⟨ha, hb⟩ | h
            · exact ⟨Or.inl ⟨ha, hb.trans h₂⟩, fun h => absurd hb (not_lt.mpr h.1)⟩
            · exact absurd h (covers_nil x)
          · simp only [if_neg hsx] at hl
            exact absurd hl (covers_nil x)
        · by_cases hex : ex < iy
          · simp only [if_pos hex] at hr
            rcases covers_cons.mp hr with ⟨ha, hb⟩ | h
            · refine ⟨Or.inl ⟨le_trans (le_of_lt h₁) ha, hb⟩, ?_⟩
              rintro ⟨-, hb'⟩
              exact absurd ha (not_le.mpr hb')
            · exact absurd h (covers_nil x)
          · simp only [if_neg hex] at hr
            exact absurd hr (covers_nil x)
        · exact ⟨Or.inr hc, hnc⟩
      · rintro ⟨⟨ha, hb⟩ | hc, hnc⟩
        · rcases lt_or_le x sx with hxs | hxs
          · have hsx : sx > ix := lt_of_le_of_lt ha hxs
            refine Or.inl (Or.inl ?_)
            simp only [if_pos hsx]
            exact covers_cons.mpr (Or.inl ⟨ha, hxs⟩)
          · have hx_ex : ex ≤ x := by
              by_contra hlt
              exact hnc ⟨hxs, not_le.mp hlt⟩
            have hex : ex < iy := lt_of_le_of_lt hx_ex hb
            refine Or.inl (Or.inr ?_)
            simp only [if_pos hex]
            exact covers_cons.mpr (Or.inl ⟨hx_ex, hb⟩)
        · exact Or.inr ⟨hc, hnc⟩

/-- The covered set of `subtractIntervals` is the base minus the union of the
cuts (half-open semantics). -/
theorem covers_subtractIntervals (base_start base_end : ℚ)
    (subtracts : List (ℚ × ℚ)) (x : ℚ) :
    covers (subtractIntervals base_start base_end subtracts) x ↔
      (base_start ≤ x ∧ x < base_end) ∧
        ∀ c ∈ subtracts, ¬ (c.1 ≤ x ∧ x < c.2) := by
  have main : ∀ (cs : List (ℚ × ℚ)) (L : List (ℚ × ℚ)),
      covers (cs.foldl (fun intervals c => removeOverlap c.1 c.2 intervals) L) x ↔
        covers L x ∧ ∀ c ∈ cs, ¬ (c.1 ≤ x ∧ x < c.2) := by
    intro cs
    induction cs with
    | nil => intro L; simp
    | cons c cs ih =>
      intro L
      rw [List.foldl_cons, ih, covers_removeOverlap]
      constructor
      · rintro ⟨⟨hc, hn⟩, hall⟩
        refine ⟨hc, ?_⟩
        intro d hd
        rcases List.mem_cons.mp hd with h | h
        · exact h ▸ hn
        · exact hall d h
      · rintro ⟨hc, hall⟩
        exact ⟨⟨hc, hall c (List.mem_cons_self _ _)⟩,
          fun d hd => hall d (List.mem_cons_of_mem _ hd)⟩
  have := main subtracts [(base_start, base_end)]
  rw [subtractIntervals, this, covers_cons]
  simp [covers_nil]

/-- A working list is separated when its intervals are nonempty and appear in
strictly increasing, non-touching order. -/
def Separated (L : List (ℚ × ℚ)) : Prop :=
  L.Pairwise (fun p q => p.2 < q.1) ∧ ∀ p ∈ L, p.1 < p.2

/-- Every interval produced by `removeOverlap` is contained in one of the
input intervals. -/
theorem removeOverlap_subset (sx ex : ℚ) (L : List (ℚ × ℚ)) :
    ∀ q ∈ removeOverlap sx ex L, ∃ p ∈ L, p.1 ≤ q.1 ∧ q.2 ≤ p.2 := by
  induction L with
  | nil => intro q hq; simp [removeOverlap] at hq
  | cons p rest ih =>
    obtain ⟨ix, iy⟩ := p
    intro q hq
    by_cases hno : ex ≤ ix ∨ sx ≥ iy
    · rw [show removeOverlap sx ex ((ix, iy) :: rest)
          = (ix, iy) :: removeOverlap sx ex rest by simp [removeOverlap, hno]] at hq
      rcases List.mem_cons.mp hq with h | h
      · exact ⟨(ix, iy), List.mem_cons_self _ _, by simp [h]⟩
      · obtain ⟨p, hp, hp'⟩ := ih q h
        exact ⟨p, List.mem_cons_of_mem _ hp, hp'⟩
    · rw [show removeOverlap sx ex ((ix, iy) :: rest)
          = (if sx > ix then [(ix, sx)] else []) ++
            (if ex < iy then [(ex, iy)] else []) ++
            removeOverlap sx ex rest by simp [removeOverlap, hno]] at hq
      push_neg at hno
      rcases List.mem_append.mp hq with hq' | hq'
      · rcases List.mem_append.mp hq' with hl | hr
        · by_cases hsx : sx > ix
          · simp only [if_pos hsx, List.mem_singleton] at hl
            refine ⟨(ix, iy), List.mem_cons_self _ _, ?_⟩
            subst hl
            exact ⟨le_rfl, le_of_lt hno.2⟩
          · simp only [if_neg hsx] at hl
            exact absurd hl (List.not_mem_nil q)
        · by_cases hex : ex < iy
          · simp only [if_pos hex, List.mem_singleton] at hr
            refine ⟨(ix, iy), List.mem_cons_self _ _, ?_⟩
            subst hr
            exact ⟨le_of_lt hno.1, le_rfl⟩
          · simp only [if_neg hex] at hr
            exact absurd hr (List.not_mem_nil q)
      · obtain ⟨p, hp, hp'⟩ := ih q hq'
        exact ⟨p, List.mem_cons_of_mem _ hp, hp'⟩

/-- For a genuine cut (`sx < ex`), `removeOverlap` keeps the working list
separated. -/
theorem sep_removeOverlap {sx ex : ℚ} (hcut : sx < ex) {L : List (ℚ × ℚ)}
    (hL : Separated L) : Separated (removeOverlap sx ex L) := by
  induction L with
  | nil => simpa [removeOverlap] using hL
  | cons p rest ih =>
    obtain ⟨ix, iy⟩ := p
    obtain ⟨hpw, hne⟩ := hL
    rw [List.pairwise_cons] at hpw
    obtain ⟨hhead, hrest⟩ := hpw
    have hiy : ix < iy := hne (ix, iy) (List.mem_cons_self _ _)
    have hrest' : Separated rest := ⟨hrest, fun q hq => hne q (List.mem_cons_of_mem _ hq)⟩
    have ihrec := ih hrest'
    have hrec_lb : ∀ q ∈ removeOverlap sx ex rest, iy < q.1 := by
      intro q hq
      obtain ⟨p, hp, hp1, -⟩ := removeOverlap_subset sx ex rest q hq
      exact lt_of_lt_of_le (hhead p hp) hp1
    by_cases hno : ex ≤ ix ∨ sx ≥ iy
    · rw [show removeOverlap sx ex ((ix, iy) :: rest)
          = (ix, iy) :: removeOverlap sx ex rest by simp [removeOverlap, hno]]
      refine ⟨List.pairwise_cons.mpr ⟨hrec_lb, ihrec.1⟩, ?_⟩
      intro q hq
      rcases List.mem_cons.mp hq with h | h
      · simpa [h] using hiy
      · exact ihrec.2 q h
    · rw [show removeOverlap sx ex ((ix, iy) :: rest)
          = (if sx > ix then [(ix, sx)] else []) ++
            (if ex < iy then [(ex, iy)] else []) ++
            removeOverlap sx ex rest by simp [removeOverlap, hno]]
      push_neg at hno
      set P := (if sx > ix then [(ix, sx)] else []) ++
        (if ex < iy then [(ex, iy)] else []) with hP
      have hPmem : ∀ q ∈ P, (ix ≤ q.1 ∧ q.2 ≤ iy) ∧ q.1 < q.2 := by
        intro q hq
        rw [hP] at hq
        rcases List.mem_append.mp hq with hl | hr
        · by_cases hsx : sx > ix
          · simp only [if_pos hsx, List.mem_singleton] at hl
            subst hl
            exact ⟨⟨le_rfl, le_of_lt hno.2⟩, hsx⟩
          · simp only [if_neg hsx] at hl
            exact absurd hl (List.not_mem_nil q)
        · by_cases hex : ex < iy
          · simp only [if_pos hex, List.mem_singleton] at hr
            subst hr
            exact ⟨⟨le_of_lt hno.1, le_rfl⟩, hex⟩
          · simp only [if_neg hex] at hr
            exact absurd hr (List.not_mem_nil q)
      have hPpw : P.Pairwise (fun p q => p.2 < q.1) := by
        rw [hP]
        by_cases hsx : sx > ix <;> by_cases hex : ex < iy <;>
          simp [if_pos, if_neg, hsx, hex, List.pairwise_cons, hcut]
      refine ⟨?_, ?_⟩
      · rw [List.pairwise_append]
        refine ⟨hPpw, ihrec.1, ?_⟩
        intro a ha b hb
        exact lt_of_le_of_lt ((hPmem a ha).1.2) (hrec_lb b hb)
      · intro q hq
        rcases List.mem_append.mp hq with h | h
        · exact (hPmem q h).2
        · exact ihrec.2 q h

/-- `subtractIntervals` keeps the working list separated when the base is a
genuine interval and every cut is a genuine interval. -/
theorem sep_subtractIntervals {base_start base_end : ℚ}
    (hbase : base_start < base_end) {subtracts : List (ℚ × ℚ)}
    (hcuts : ∀ c ∈ subtracts, c.1 < c.2) :
    Separated (subtractIntervals base_start base_end subtracts) := by
  have main : ∀ (cs : List (ℚ × ℚ)), (∀ c ∈ cs, c.1 < c.2) →
      ∀ (L : List (ℚ × ℚ)), Separated L →
        Separated (cs.foldl (fun intervals c => removeOverlap c.1 c.2 intervals) L) := by
    intro cs
    induction cs with
    | nil => intro _ L hL; simpa using hL
    | cons c cs ih =>
      intro hval L hL
      rw [List.foldl_cons]
      exact ih (fun d hd => hval d (List.mem_cons_of_mem _ hd))
        _ (sep_removeOverlap (hval c (List.mem_cons_self _ _)) hL)
  refine main subtracts hcuts [(base_start, base_end)] ?_
  constructor
  · simp
  · intro p hp
    rw [List.mem_singleton] at hp
    simpa [hp] using hbase

/-- Every interval produced by `subtractIntervals` lies inside the base
interval. -/
theorem subtractIntervals_subset (base_start base_end : ℚ)
    (subtracts : List (ℚ × ℚ)) :
    ∀ p ∈ subtractIntervals base_start base_end subtracts,
      base_start ≤ p.1 ∧ p.2 ≤ base_end := by
  have main : ∀ (cs : List (ℚ × ℚ)) (L : List (ℚ × ℚ)),
      ∀ q ∈ cs.foldl (fun intervals c => removeOverlap c.1 c.2 intervals) L,
        ∃ p ∈ L, p.1 ≤ q.1 ∧ q.2 ≤ p.2 := by
    intro cs
    induction cs with
    | nil => intro L q hq; exact ⟨q, hq, le_rfl, le_rfl⟩
    | cons c cs ih =>
      intro L q hq
      rw [List.foldl_cons] at hq
      obtain ⟨p, hp, hp'⟩ := ih _ q hq
      obtain ⟨r, hr, hr'⟩ := removeOverlap_subset c.1 c.2 L p hp
      exact ⟨r, hr, le_trans hr'.1 hp'.1, le_trans hp'.2 hr'.2⟩
  intro p hp
  obtain ⟨r, hr, hr'⟩ := main subtracts [(base_start, base_end)] p hp
  rw [List.mem_singleton] at hr
  subst hr
  exact hr'

theorem separated_tail {p : ℚ × ℚ} {t : List (ℚ × ℚ)}
    (h : Separated (p :: t)) : Separated t :=
  ⟨(List.pairwise_cons.mp h.1).2, fun q hq => h.2 q (List.mem_cons_of_mem _ hq)⟩

/-- In a separated list the head's left endpoint bounds every covered point. -/
theorem separated_head_le {a b : ℚ} {t : List (ℚ × ℚ)}
    (h : Separated ((a, b) :: t)) {x : ℚ} (hx : covers ((a, b) :: t) x) :
    a ≤ x := by
  rcases covers_cons.mp hx with ⟨h₁, -⟩ | ⟨q, hq, hq1, -⟩
  · exact h₁
  · have hab : a < b := h.2 (a, b) (List.mem_cons_self _ _)
    have hbq : b < q.1 := (List.pairwise_cons.mp h.1).1 q hq
    exact le_of_lt (lt_trans hab (lt_of_lt_of_le hbq hq1))

/-- In a separated list the head's right endpoint is never covered. -/
theorem separated_not_covers_snd {a b : ℚ} {t : List (ℚ × ℚ)}
    (h : Separated ((a, b) :: t)) : ¬ covers ((a, b) :: t) b := by
  intro hx
  rcases covers_cons.mp hx with ⟨-, h₂⟩ | ⟨q, hq, hq1, -⟩
  · exact lt_irrefl b h₂
  · exact absurd ((List.pairwise_cons.mp h.1).1 q hq) (not_lt.mpr hq1)

/-- Two separated lists covering the same points are equal: the decomposition
of a point set into separated nonempty half-open intervals is unique. -/
theorem separated_covers_ext :
    ∀ {L₁ L₂ : List (ℚ × ℚ)}, Separated L₁ → Separated L₂ →
      (∀ x, covers L₁ x ↔ covers L₂ x) → L₁ = L₂ := by
  intro L₁
  induction L₁ with
  | nil =>
    intro L₂ _ h₂ hcov
    cases L₂ with
    | nil => rfl
    | cons q t₂ =>
      obtain ⟨c, d⟩ := q
      have hcd : c < d := h₂.2 (c, d) (List.mem_cons_self _ _)
      have : covers ((c, d) :: t₂) c := covers_cons.mpr (Or.inl ⟨le_rfl, hcd⟩)
      exact absurd ((hcov c).mpr this) (covers_nil c)
  | cons p t₁ ih =>
    intro L₂ h₁ h₂ hcov
    obtain ⟨a, b⟩ := p
    cases L₂ with
    | nil =>
      have hab : a < b := h₁.2 (a, b) (List.mem_cons_self _ _)
      have : covers ((a, b) :: t₁) a := covers_cons.mpr (Or.inl ⟨le_rfl, hab⟩)
      exact absurd ((hcov a).mp this) (covers_nil a)
    | cons q t₂ =>
      obtain ⟨c, d⟩ := q
      have hab : a < b := h₁.2 (a, b) (List.mem_cons_self _ _)
      have hcd : c < d := h₂.2 (c, d) (List.mem_cons_self _ _)
      have hac : a = c := by
        have h₁' : covers ((a, b) :: t₁) a := covers_cons.mpr (Or.inl ⟨le_rfl, hab⟩)
        have h₂' : covers ((c, d) :: t₂) c := covers_cons.mpr (Or.inl ⟨le_rfl, hcd⟩)
        exact le_antisymm (separated_head_le h₁ ((hcov c).mpr h₂'))
          (separated_head_le h₂ ((hcov a).mp h₁'))
      subst hac
      have hbd : b = d := by
        rcases lt_trichotomy b d with h | h | h
        · have : covers ((a, d) :: t₂) b :=
            covers_cons.mpr (Or.inl ⟨le_of_lt hab, h⟩)
          exact absurd ((hcov b).mpr this) (separated_not_covers_snd h₁)
        · exact h
        · have : covers ((a, b) :: t₁) d :=
            covers_cons.mpr (Or.inl ⟨le_of_lt hcd, h⟩)
          exact absurd ((hcov d).mp this) (separated_not_covers_snd h₂)
      subst hbd
      have htail : ∀ x, covers t₁ x ↔ covers t₂ x := by
        intro x
        constructor
        · intro hx
          obtain ⟨q, hq, hq1, hq2⟩ := hx
          have hbx : b < x :=
            lt_of_lt_of_le ((List.pairwise_cons.mp h₁.1).1 q hq) hq1
          have : covers ((a, b) :: t₂) x :=
            (hcov x).mp (covers_cons.mpr (Or.inr ⟨q, hq, hq1, hq2⟩))
          rcases covers_cons.mp this with ⟨-, h₂'⟩ | h'
          · exact absurd h₂' (not_lt.mpr (le_of_lt hbx))
          · exact h'
        · intro hx
          obtain ⟨q, hq, hq1, hq2⟩ := hx
          have hbx : b < x :=
            lt_of_lt_of_le ((List.pairwise_cons.mp h₂.1).1 q hq) hq1
          have : covers ((a, b) :: t₁) x :=
            (hcov x).mpr (covers_cons.mpr (Or.inr ⟨q, hq, hq1, hq2⟩))
          rcases covers_cons.mp this with ⟨-, h₂'⟩ | h'
          · exact absurd h₂' (not_lt.mpr (le_of_lt hbx))
          · exact h'
      rw [ih (separated_tail h₁) (separated_tail h₂) htail]

/-- Claim C1: for every base interval with `base_start < base_end` and every
list of cuts each with `start < end`, `subtractIntervals` returns
pairwise-disjoint sub-intervals of the base, each with `start < end`, whose
union equals the base minus the union of the cuts; in particular
`subtractIntervals 0 10 [(2,4),(6,8)] = [(0,2),(4,6),(8,10)]`. -/
theorem claim_c1 (base_start base_end : ℚ) (subtracts : List (ℚ × ℚ))
    (hbase : base_start < base_end) (hcuts : ∀ c ∈ subtracts, c.1 < c.2) :
    (subtractIntervals base_start base_end subtracts).Pairwise
        (fun p q => p.2 ≤ q.1 ∨ q.2 ≤ p.1) ∧
    (∀ p ∈ subtractIntervals base_start base_end subtracts, p.1 < p.2) ∧
    (∀ p ∈ subtractIntervals base_start base_end subtracts,
        base_start ≤ p.1 ∧ p.2 ≤ base_end) ∧
    (∀ x : ℚ, covers (subtractIntervals base_start base_end subtracts) x ↔
        (base_start ≤ x ∧ x < base_end) ∧
          ∀ c ∈ subtracts, ¬ (c.1 ≤ x ∧ x < c.2)) ∧
    subtractIntervals 0 10 [(2, 4), (6, 8)] = [(0, 2), (4, 6), (8, 10)] := by
  have hsep := sep_subtractIntervals hbase hcuts
  refine ⟨hsep.1.imp (fun h => Or.inl (le_of_lt h)), hsep.2,
    subtractIntervals_subset base_start base_end subtracts,
    covers_subtractIntervals base_start base_end subtracts, by decide⟩

theorem claim_c1_witness :
    (0 : ℚ) < 10 ∧
    (∀ p ∈ subtractIntervals (0 : ℚ) 10 [(2, 4), (6, 8)], p.1 < p.2) ∧
    (subtractIntervals (0 : ℚ) 10 [(2, 4), (6, 8)]).Pairwise
        (fun p q => p.2 ≤ q.1 ∨ q.2 ≤ p.1) := by
  have h := claim_c1 0 10 [(2, 4), (6, 8)] (by norm_num) (by decide)
  exact ⟨by norm_num, h.2.1, h.1⟩

/-- Claim C5, counterexample: the degenerate cut `(5,5)` is not a no-op on the
base `(0,10)` — it splits the base at `5` — so removing malformed cuts does
not leave the returned list unchanged. -/
theorem claim_c5_counterexample :
    subtractIntervals 0 10 [(5, 5)] ≠
      subtractIntervals 0 10
        (([(5, 5)] : List (ℚ × ℚ)).filter fun c => decide (c.1 < c.2)) := by
  decide

/-- Claim C5, amended: malformed cuts (`start ≥ end`) never change the set of
covered points — `subtractIntervals` covers exactly the same points as with
the malformed cuts removed — although the returned interval lists themselves
may differ (a degenerate cut can split an interval at a point). -/
theorem claim_c5 (base_start base_end : ℚ) (subtracts : List (ℚ × ℚ))
    (hbase : base_start < base_end) :
    ∀ x : ℚ, covers (subtractIntervals base_start base_end subtracts) x ↔
      covers (subtractIntervals base_start base_end
        (subtracts.filter fun c => decide (c.1 < c.2))) x := by
  intro x
  rw [covers_subtractIntervals, covers_subtractIntervals]
  constructor
  · rintro ⟨hb, hall⟩
    refine ⟨hb, fun c hc => hall c (List.mem_of_mem_filter hc)⟩
  · rintro ⟨hb, hall⟩
    refine ⟨hb, fun c hc => ?_⟩
    by_cases hval : c.1 < c.2
    · exact hall c (List.mem_filter.mpr ⟨hc, decide_eq_true hval⟩)
    · rintro ⟨h₁, h₂⟩
      exact hval (lt_of_le_of_lt h₁ h₂)

theorem claim_c5_witness :
    (0 : ℚ) < 10 ∧
    (covers (subtractIntervals (0 : ℚ) 10 [(5, 5)]) 3 ↔
      covers (subtractIntervals (0 : ℚ) 10
        (([(5, 5)] : List (ℚ × ℚ)).filter fun c => decide (c.1 < c.2))) 3) :=
  ⟨by norm_num, claim_c5 0 10 [(5, 5)] (by norm_num) 3⟩

/-- Claim C7: cut order does not matter — for a genuine base interval and
genuine cuts, any permutation of the cut list yields the same result (even as
a list, hence in particular as a set of intervals). -/
theorem claim_c7 (base_start base_end : ℚ) (cuts₁ cuts₂ : List (ℚ × ℚ))
    (hbase : base_start < base_end) (hcuts : ∀ c ∈ cuts₁, c.1 < c.2)
    (hperm : cuts₁.Perm cuts₂) :
    subtractIntervals base_start base_end cuts₁ =
      subtractIntervals base_start base_end cuts₂ := by
  have hcuts₂ : ∀ c ∈ cuts₂, c.1 < c.2 :=
    fun c hc => hcuts c (hperm.mem_iff.mpr hc)
  refine separated_covers_ext (sep_subtractIntervals hbase hcuts)
    (sep_subtractIntervals hbase hcuts₂) ?_
  intro x
  rw [covers_subtractIntervals, covers_subtractIntervals]
  constructor
  · rintro ⟨hb, hall⟩
    exact ⟨hb, fun c hc => hall c (hperm.mem_iff.mpr hc)⟩
  · rintro ⟨hb, hall⟩
    exact ⟨hb, fun c hc => hall c (hperm.mem_iff.mp hc)⟩

theorem claim_c7_witness :
    subtractIntervals (0 : ℚ) 10 [(2, 4), (6, 8)] =
      subtractIntervals (0 : ℚ) 10 [(6, 8), (2, 4)] :=
  claim_c7 0 10 [(2, 4), (6, 8)] [(6, 8), (2, 4)] (by norm_num) (by decide)
    (List.Perm.swap _ _ _)

/-- Physics constants from `PhysicsSettings` (PhysicsObject.py lines 11-16). -/
def PhysicsSettings.gravity (K : Type) [LinearOrderedField K] : K := 5000

def PhysicsSettings.friction (K : Type) [LinearOrderedField K] : K := 2000

def PhysicsSettings.air_resistance (K : Type) [LinearOrderedField K] : K := 1 / 1000

def PhysicsSettings.bounce_damping (K : Type) [LinearOrderedField K] : K := 1 / 2

def PhysicsSettings.min_velocity (K : Type) [LinearOrderedField K] : K := 1

/-- The state of a `PhysicsObject`: position, velocity and size vectors. -/
@[ext]
structure Body (K : Type) where
  px : K
  py : K
  vx : K
  vy : K
  sx : K
  sy : K
  deriving DecidableEq

/-- A screen rectangle, of which only `width()` and `height()` are read. -/
structure ScreenRect (K : Type) where
  width : K
  height : K
  deriving DecidableEq

/-- A `CollisionBordersGroup`: the visible segments of one window's top edge
together with the edge's height (PhysicsObject.py lines 26-29). -/
structure CollisionBordersGroup (K : Type) where
  x_s : List (K × K)
  y : K
  deriving DecidableEq

/-- `PhysicsObject.screenBordersCollision` (PhysicsObject.py lines 90-113):
clamp each axis against the screen rectangle, damping and inverting the
corresponding velocity component; report whether the bottom edge was hit. -/
def screenBordersCollision {K : Type} [LinearOrderedField K] (s : Body K)
    (scr : ScreenRect K) : Body K × Bool :=
  let xvx : K × K :=
    if s.px < 0 then (0, s.vx * -(PhysicsSettings.bounce_damping K))
    else if s.px + s.sx > scr.width then
      (scr.width - s.sx, s.vx * -(PhysicsSettings.bounce_damping K))
    else (s.px, s.vx)
  let yvyf : K × K × Bool :=
    if s.py < 0 then (0, s.vy * -(PhysicsSettings.bounce_damping K), false)
    else if s.py + s.sy > scr.height then
      (scr.height - s.sy, s.vy * -(PhysicsSettings.bounce_damping K), true)
    else (s.py, s.vy, false)
  ({ s with px := xvx.1, vx := xvx.2, py := yvyf.1, vy := yvyf.2.1 }, yvyf.2.2)

/-- Inner loop of `PhysicsObject.windowsCollision` (PhysicsObject.py lines
168-171): does any segment of the group overlap the body's horizontal
extent? -/
def segmentsCollide {K : Type} [LinearOrderedField K]
    (char_left char_right : K) : List (K × K) → Bool
  | [] => false
  | p :: ps =>
    if char_right > p.1 ∧ p.2 > char_left then true
    else segmentsCollide char_left char_right ps

/-- `PhysicsObject.windowsCollision` (PhysicsObject.py lines 154-176),
parametrised by the list of collision-border groups the snapshot produced:
scan the groups in order, land on the first group whose top edge was crossed
this tick and whose segments overlap the body horizontally. -/
def windowsCollision {K : Type} [LinearOrderedField K] (s : Body K)
    (previous_y : K) : List (CollisionBordersGroup K) → Body K × Bool
  | [] => (s, false)
  | g :: gs =>
    if s.py + s.sy > g.y ∧ g.y ≥ previous_y + s.sy then
      if segmentsCollide s.px (s.px + s.sx) g.x_s then
        ({ s with py := g.y - s.sy, vy := s.vy * -(PhysicsSettings.bounce_damping K) }, true)
      else windowsCollision s previous_y gs
    else windowsCollision s previous_y gs

theorem segmentsCollide_iff {K : Type} [LinearOrderedField K]
    (char_left char_right : K) (L : List (K × K)) :
    segmentsCollide char_left char_right L = true ↔
      ∃ q ∈ L, char_right > q.1 ∧ q.2 > char_left := by
  induction L with
  | nil => simp [segmentsCollide]
  | cons p ps ih =>
    by_cases h : char_right > p.1 ∧ p.2 > char_left
    · simp [segmentsCollide, if_pos h]
      exact Or.inl h
    · rw [show segmentsCollide char_left char_right (p :: ps)
          = segmentsCollide char_left char_right ps by
            simp [segmentsCollide, if_neg h]]
      rw [ih]
      constructor
      · rintro ⟨q, hq, hq'⟩
        exact ⟨q, List.mem_cons_of_mem _ hq, hq'⟩
      · rintro ⟨q, hq, hq'⟩
        rcases List.mem_cons.mp hq with rfl | hq''
        · exact absurd hq' h
        · exact ⟨q, hq'', hq'⟩

/-- Closed form of `screenBordersCollision`: per-axis clamping with `elif`
semantics, friction flag exactly on the bottom branch. -/
theorem screenBordersCollision_unfold {K : Type} [LinearOrderedField K]
    (s : Body K) (scr : ScreenRect K) :
    screenBordersCollision s scr =
      ({ px := if s.px < 0 then 0
            else if s.px + s.sx > scr.width then scr.width - s.sx else s.px,
         py := if s.py < 0 then 0
            else if s.py + s.sy > scr.height then scr.height - s.sy else s.py,
         vx := if s.px < 0 then s.vx * -(PhysicsSettings.bounce_damping K)
            else if s.px + s.sx > scr.width then
              s.vx * -(PhysicsSettings.bounce_damping K) else s.vx,
         vy := if s.py < 0 then s.vy * -(PhysicsSettings.bounce_damping K)
            else if s.py + s.sy > scr.height then
              s.vy * -(PhysicsSettings.bounce_damping K) else s.vy,
         sx := s.sx, sy := s.sy },
       if s.py < 0 then false
         else if s.py + s.sy > scr.height then true else false) := by
  unfold screenBordersCollision
  by_cases h1 : s.px < 0 <;> by_cases h2 : s.px + s.sx > scr.width <;>
    by_cases h3 : s.py < 0 <;> by_cases h4 : s.py + s.sy > scr.height <;>
      simp [h1, h2, h3, h4]

/-- Claim C4, counterexample: a body taller than the screen, poking out both
above and below (`py < 0` and `py + sy > height`), satisfies the claim's
"bottom-edge collision" condition `y + height > screen height`, yet the code
takes the top-edge branch and does not raise the friction flag. -/
theorem claim_c4_counterexample :
    (screenBordersCollision (⟨5, -1, 0, 0, 50, 1002⟩ : Body ℚ)
      ⟨1000, 1000⟩).2 = false ∧ (-1 : ℚ) + 1002 > 1000 := by
  constructor
  · decide
  · norm_num

/-- Claim C4, amended: the screen-boundary step works per axis with the
below-zero check taking precedence (`elif`): if the coordinate is below 0 it
is clamped to 0 and that axis's velocity is damped and inverted; otherwise if
`position + size` exceeds the extent, the position is clamped to
`extent - size` and the velocity damped and inverted; otherwise the axis is
untouched.  The friction flag is raised exactly when the bottom-edge branch is
taken, i.e. when `¬(y < 0)` and `y + height > screen height`, and by no other
edge.  Size is never modified. -/
theorem claim_c4 (s : Body ℚ) (scr : ScreenRect ℚ) :
    (s.px < 0 →
      (screenBordersCollision s scr).1.px = 0 ∧
      (screenBordersCollision s scr).1.vx =
        s.vx * -(PhysicsSettings.bounce_damping ℚ)) ∧
    (¬ s.px < 0 ∧ s.px + s.sx > scr.width →
      (screenBordersCollision s scr).1.px = scr.width - s.sx ∧
      (screenBordersCollision s scr).1.vx =
        s.vx * -(PhysicsSettings.bounce_damping ℚ)) ∧
    (¬ s.px < 0 ∧ ¬ s.px + s.sx > scr.width →
      (screenBordersCollision s scr).1.px = s.px ∧
      (screenBordersCollision s scr).1.vx = s.vx) ∧
    (s.py < 0 →
      (screenBordersCollision s scr).1.py = 0 ∧
      (screenBordersCollision s scr).1.vy =
        s.vy * -(PhysicsSettings.bounce_damping ℚ)) ∧
    (¬ s.py < 0 ∧ s.py + s.sy > scr.height →
      (screenBordersCollision s scr).1.py = scr.height - s.sy ∧
      (screenBordersCollision s scr).1.vy =
        s.vy * -(PhysicsSettings.bounce_damping ℚ)) ∧
    (¬ s.py < 0 ∧ ¬ s.py + s.sy > scr.height →
      (screenBordersCollision s scr).1.py = s.py ∧
      (screenBordersCollision s scr).1.vy = s.vy) ∧
    ((screenBordersCollision s scr).2 = true ↔
      ¬ s.py < 0 ∧ s.py + s.sy > scr.height) ∧
    (screenBordersCollision s scr).1.sx = s.sx ∧
    (screenBordersCollision s scr).1.sy = s.sy := by
  rw [screenBordersCollision_unfold]
  refine ⟨fun h => by simp [h], fun h => by simp [h.1, h.2],
    fun h => by simp [h.1, h.2], fun h => by simp [h],
    fun h => by simp [h.1, h.2], fun h => by simp [h.1, h.2], ?_, by simp, by simp⟩
  by_cases h3 : s.py < 0
  · simp [h3]
  · by_cases h4 : s.py + s.sy > scr.height <;> simp [h3, h4]

theorem claim_c4_witness :
    ((-3 : ℚ) < 0) ∧
    ((screenBordersCollision (⟨-3, 5, 8, 0, 50, 50⟩ : Body ℚ)
        ⟨1000, 800⟩).1.px = 0 ∧
      (screenBordersCollision (⟨-3, 5, 8, 0, 50, 50⟩ : Body ℚ)
        ⟨1000, 800⟩).1.vx = 8 * -(PhysicsSettings.bounce_damping ℚ)) :=
  ⟨by norm_num,
    (claim_c4 (⟨-3, 5, 8, 0, 50, 50⟩ : Body ℚ) ⟨1000, 800⟩).1 (by norm_num)⟩

/-- Claim C10: `windowsCollision` never touches `position.x`, `velocity.x` or
the body's size, and when it returns `False` it leaves the whole body state
unchanged; when it returns `True` only `position.y` and `velocity.y` change. -/
theorem claim_c10 (s : Body ℚ) (previous_y : ℚ)
    (groups : List (CollisionBordersGroup ℚ)) :
    (windowsCollision s previous_y groups).1.px = s.px ∧
    (windowsCollision s previous_y groups).1.vx = s.vx ∧
    (windowsCollision s previous_y groups).1.sx = s.sx ∧
    (windowsCollision s previous_y groups).1.sy = s.sy ∧
    ((windowsCollision s previous_y groups).2 = false →
      (windowsCollision s previous_y groups).1 = s) := by
  induction groups with
  | nil => simp [windowsCollision]
  | cons g gs ih =>
    by_cases hy : s.py + s.sy > g.y ∧ g.y ≥ previous_y + s.sy
    · by_cases hseg : segmentsCollide s.px (s.px + s.sx) g.x_s
      · simp [windowsCollision, hy, hseg]
      · simpa [windowsCollision, hy, hseg] using ih
    · simpa [windowsCollision, hy] using ih

theorem claim_c10_witness :
    (windowsCollision (⟨0, 0, 0, 5, 50, 50⟩ : Body ℚ) 0
        [⟨[(0, 100)], 200⟩]).1 = (⟨0, 0, 0, 5, 50, 50⟩ : Body ℚ) :=
  (claim_c10 (⟨0, 0, 0, 5, 50, 50⟩ : Body ℚ) 0 [⟨[(0, 100)], 200⟩]).2.2.2.2
    (by norm_num [windowsCollision])

/-- Claim C3: when `applyPhysics` reaches the window-collision step (no
bottom-edge screen collision and `velocity.y > 0`), the first group in
iteration order whose `y` satisfies `newBottom > y ≥ previousBottom` and
which contains a segment overlapping the body horizontally resolves the
landing: `position.y` becomes `segment.y - height` (so the bottom rests
exactly on the segment), `velocity.y` is multiplied by `-bounce_damping`, the
friction flag is returned `True`, and the segments and groups after the first
match never influence the result. -/
theorem claim_c3 (s : Body ℚ) (previous_y : ℚ)
    (gs₁ gs₂ : List (CollisionBordersGroup ℚ)) (g : CollisionBordersGroup ℚ)
    (ss₁ ss₂ : List (ℚ × ℚ)) (seg : ℚ × ℚ)
    (hvy : 0 < s.vy)
    (hbefore : ∀ g' ∈ gs₁, s.py + s.sy > g'.y ∧ g'.y ≥ previous_y + s.sy →
      segmentsCollide s.px (s.px + s.sx) g'.x_s = false)
    (hg : s.py + s.sy > g.y ∧ g.y ≥ previous_y + s.sy)
    (hx_s : g.x_s = ss₁ ++ seg :: ss₂)
    (hseg₁ : ∀ q ∈ ss₁, ¬ (s.px + s.sx > q.1 ∧ q.2 > s.px))
    (hseg : s.px + s.sx > seg.1 ∧ seg.2 > s.px) :
    windowsCollision s previous_y (gs₁ ++ g :: gs₂) =
      ({ s with py := g.y - s.sy, vy := s.vy * -(PhysicsSettings.bounce_damping ℚ) }, true) := by
  have hcollide : segmentsCollide s.px (s.px + s.sx) g.x_s = true := by
    rw [segmentsCollide_iff]
    exact ⟨seg, hx_s ▸ List.mem_append_right _ (List.mem_cons_self _ _), hseg⟩
  induction gs₁ with
  | nil =>
    rw [List.nil_append]
    simp [windowsCollision, hg, hcollide]
  | cons g' gs₁ ih =>
    rw [List.cons_append]
    by_cases hy' : s.py + s.sy > g'.y ∧ g'.y ≥ previous_y + s.sy
    · have hnc : segmentsCollide s.px (s.px + s.sx) g'.x_s = false :=
        hbefore g' (List.mem_cons_self _ _) hy'
      rw [show windowsCollision s previous_y (g' :: (gs₁ ++ g :: gs₂))
          = windowsCollision s previous_y (gs₁ ++ g :: gs₂) by
            simp [windowsCollision, hy', hnc]]
      exact ih (fun g'' hg'' => hbefore g'' (List.mem_cons_of_mem _ hg''))
    · rw [show windowsCollision s previous_y (g' :: (gs₁ ++ g :: gs₂))
          = windowsCollision s previous_y (gs₁ ++ g :: gs₂) by
            simp [windowsCollision, hy']]
      exact ih (fun g'' hg'' => hbefore g'' (List.mem_cons_of_mem _ hg''))

theorem claim_c3_witness :
    windowsCollision (⟨100, 155, 3, 200, 50, 50⟩ : Body ℚ) 150
        [⟨[(300, 400)], 202⟩, ⟨[(500, 600), (90, 180)], 201⟩, ⟨[(0, 1000)], 203⟩] =
      ({ (⟨100, 155, 3, 200, 50, 50⟩ : Body ℚ) with py := 201 - 50, vy := 200 * -(PhysicsSettings.bounce_damping ℚ) }, true) :=
  claim_c3 (⟨100, 155, 3, 200, 50, 50⟩ : Body ℚ) 150
    [⟨[(300, 400)], 202⟩] [⟨[(0, 1000)], 203⟩] ⟨[(500, 600), (90, 180)], 201⟩
    [(500, 600)] [] (90, 180)
    (by norm_num)
    (by intro g' hg' hy'; simp at hg'; subst hg'; norm_num [segmentsCollide])
    (by norm_num)
    rfl
    (by intro q hq; simp at hq; subst hq; norm_num)
    (by norm_num)

/-- One entry of `DesktopInteractionManager.windows`
(DesktopInteractionManager.py lines 9-16); the win32-only fields (title,
class name) are external glue and omitted.  `z` is the enumeration order
counter. -/
structure WindowInfo where
  hwnd : ℤ
  position : ℚ × ℚ
  size : ℚ × ℚ
  z : ℕ
  deriving DecidableEq

/-- The inner occluder loop of `getCollisionBordersGroups`
(PhysicsObject.py lines 129-143) as its body is written — comparisons on
`.z` and `.position`/`.size`, which only make sense on the dict's
`WindowInfo` VALUES: collect the horizontal intervals of the windows
covering `w`'s top edge.  `j ≠ i` models the `is` identity test against the
outer window.  In the source as written this loop body is unreachable: the
loop iterates the dict itself and receives integer keys, so the attribute
accesses raise (see `getCollisionBordersGroups` below); this definition
captures the evident intent of the body, used only to analyse the occluder
rule it encodes. -/
def coveringIntervals (w : WindowInfo) (i : ℕ) :
    List (ℕ × WindowInfo) → List (ℚ × ℚ)
  | [] => []
  | (j, w2) :: rest =>
    if w.z < w2.z then coveringIntervals w i rest
    else if j = i then coveringIntervals w i rest
    else if w2.position.2 ≤ w.position.2 ∧
        w.position.2 < w2.position.2 + w2.size.2 then
      (w2.position.1, w2.position.1 + w2.size.1) :: coveringIntervals w i rest
    else coveringIntervals w i rest

/-- The loop body of `getCollisionBordersGroups` (PhysicsObject.py lines
115-152) as it would execute if the two loops iterated the dict's
`WindowInfo` VALUES — the evident intent of the body, whose attribute
accesses (`.position`, `.size`, `.z`) only make sense on values: one group
per window, carrying the window's top edge `y` and the segments of that edge
left visible after subtracting the covering intervals.  Not reachable in the
source as written (see `getCollisionBordersGroups`); used only to analyse
the occluder rule the body encodes. -/
def getCollisionBordersGroupsOnValues (ws : List WindowInfo) :
    List (CollisionBordersGroup ℚ) :=
  ws.enum.map fun iw =>
    { x_s := subtractIntervals iw.2.position.1
        (iw.2.position.1 + iw.2.size.1) (coveringIntervals iw.2 iw.1 ws.enum),
      y := iw.2.position.2 }

/-- `PhysicsObject.getCollisionBordersGroups` (PhysicsObject.py lines
115-152) as it actually executes, parametrised by the contents of the
class-level dict `DesktopInteractionManager.windows : dict[int, WindowInfo]`
(an insertion-ordered association list of `(hwnd, info)` pairs).  Both
`for windowInfo in DesktopInteractionManager.windows:` loops (lines 122 and
133) iterate the dict itself, which in Python yields the integer KEYS, not
the `WindowInfo` values; the first statement of the outer loop body,
`windowInfo.position[0]` (line 124), is then an attribute access on an `int`
and raises `AttributeError`.  The outer loop therefore aborts on its first
iteration whenever the dict is nonempty, and only the empty dict completes
the loop, returning the empty group list.  The raised exception is modelled
as `none`. -/
def getCollisionBordersGroups (windows : List (ℤ × WindowInfo)) :
    Option (List (CollisionBordersGroup ℚ)) :=
  match windows with
  | [] => some []
  | _ :: _ => none

/-- Occluder selection as claim C2 words it (following the spec, for
comparison with the intent of the code's loop body): candidate occluders are
the other windows with `W2.z > W.z` whose vertical extent straddles W's top
edge. -/
def specOccluderIntervalsC2 (w : WindowInfo) (i : ℕ)
    (ws : List (ℕ × WindowInfo)) : List (ℚ × ℚ) :=
  (ws.filter fun jw => decide (w.z < jw.2.z) && decide (jw.1 ≠ i) &&
      decide (jw.2.position.2 ≤ w.position.2) &&
      decide (w.position.2 < jw.2.position.2 + jw.2.size.2)).map
    fun jw => (jw.2.position.1, jw.2.position.1 + jw.2.size.1)

/-- The surface builder as claim C2 describes it, cutting with the
spec-side occluders. -/
def specGetCollisionBordersGroupsC2 (ws : List WindowInfo) :
    List (CollisionBordersGroup ℚ) :=
  ws.enum.map fun iw =>
    { x_s := subtractIntervals iw.2.position.1
        (iw.2.position.1 + iw.2.size.1)
        (specOccluderIntervalsC2 iw.2 iw.1 ws.enum),
      y := iw.2.position.2 }

/-- The code's covering loop, declaratively: it keeps exactly the windows
with `¬(W.z < W2.z)` (back or equal order key) other than the window itself
whose vertical extent straddles the top edge. -/
theorem coveringIntervals_eq_filter (w : WindowInfo) (i : ℕ)
    (L : List (ℕ × WindowInfo)) :
    coveringIntervals w i L =
      (L.filter fun jw => decide (¬ w.z < jw.2.z) && decide (jw.1 ≠ i) &&
          decide (jw.2.position.2 ≤ w.position.2) &&
          decide (w.position.2 < jw.2.position.2 + jw.2.size.2)).map
        fun jw => (jw.2.position.1, jw.2.position.1 + jw.2.size.1) := by
  induction L with
  | nil => rfl
  | cons jw rest ih =>
    obtain ⟨j, w2⟩ := jw
    by_cases h1 : w.z < w2.z
    · simp [coveringIntervals, h1, ih]
    · by_cases h2 : j = i
      · simp [coveringIntervals, h1, h2, ih]
      · by_cases h3 : w2.position.2 ≤ w.position.2
        · by_cases h4 : w.position.2 < w2.position.2 + w2.size.2
          · simp [coveringIntervals, h1, h2, h3, h4, not_lt.mp h1, ih]
          · simp [coveringIntervals, h1, h2, h3, h4, ih]
        · simp [coveringIntervals, h1, h2, h3, ih]

/-- Secondary divergence of claim C2, on the intent model: two overlapping
windows, the second one in front per the code's order key (`z` assigned in
enumeration order, front windows first).  The claim's occluder rule
(`W2.z > W.z`) cuts the back window's top edge, while the loop body's rule
(`¬(W.z < W2.z)`) cuts the front window's top edge instead: even if the
loops iterated the dict's values, the builder would disagree with the claim
on this snapshot. -/
theorem onValues_ne_specC2 :
    getCollisionBordersGroupsOnValues
        [⟨1, (0, 0), (10, 10), 0⟩, ⟨2, (5, 0), (10, 10), 1⟩] ≠
      specGetCollisionBordersGroupsC2
        [⟨1, (0, 0), (10, 10), 0⟩, ⟨2, (5, 0), (10, 10), 1⟩] := by
  intro h
  have h0 := congrArg (fun l => l[0]?) h
  norm_num [getCollisionBordersGroupsOnValues, specGetCollisionBordersGroupsC2,
    specOccluderIntervalsC2, coveringIntervals, subtractIntervals,
    removeOverlap, List.enum, List.enumFrom] at h0

/-- Characterization of the intent model: for every window `W` (index `i`),
the group the loop body would emit carries `y = W.top` and its segments are
`subtractIntervals` applied to the base `(W.left, W.right)` with, as cuts,
the `(left, right)` intervals of exactly the OTHER windows `W2` with
`¬(W.z < W2.z)` — windows whose order key is not greater, the windows in
front under the code's convention that earlier-enumerated (frontmost)
windows receive the smaller `z` — and whose vertical extent straddles W's
top edge (`W2.top ≤ W.top < W2.bottom`). -/
theorem getCollisionBordersGroupsOnValues_spec (ws : List WindowInfo) (i : ℕ)
    (hi : i < ws.length) :
    (getCollisionBordersGroupsOnValues ws)[i]? =
      some
        { x_s := subtractIntervals (ws.get ⟨i, hi⟩).position.1
            ((ws.get ⟨i, hi⟩).position.1 + (ws.get ⟨i, hi⟩).size.1)
            ((ws.enum.filter fun jw =>
                decide (¬ (ws.get ⟨i, hi⟩).z < jw.2.z) && decide (jw.1 ≠ i) &&
                decide (jw.2.position.2 ≤ (ws.get ⟨i, hi⟩).position.2) &&
                decide ((ws.get ⟨i, hi⟩).position.2 <
                  jw.2.position.2 + jw.2.size.2)).map
              fun jw => (jw.2.position.1, jw.2.position.1 + jw.2.size.1)),
          y := (ws.get ⟨i, hi⟩).position.2 } := by
  rw [getCollisionBordersGroupsOnValues, List.getElem?_map, List.getElem?_enum,
    List.getElem?_eq_getElem hi]
  simp only [Option.map_some', Option.some.injEq]
  rw [coveringIntervals_eq_filter]
  rfl

/-- Claim C2 fails as a code bug: `getCollisionBordersGroups` never computes
any occlusion span.  On the empty window collection it returns the empty
group list, and on EVERY nonempty collection — here evaluated at an
arbitrary first entry `(k, w)` and tail — it raises `AttributeError`
(modelled `none`) before emitting a single group, because the loops iterate
the `windows` dict's integer keys instead of its `WindowInfo` values.  The
per-window groups with occluder-subtracted spans that the claim describes
are never produced. -/
theorem claim_c2 :
    getCollisionBordersGroups [] = some [] ∧
    ∀ (k : ℤ) (w : WindowInfo) (rest : List (ℤ × WindowInfo)),
      getCollisionBordersGroups ((k, w) :: rest) = none :=
  ⟨rfl, fun _ _ _ => rfl⟩

/-- The data the `EnumWindows` callback reads for one accepted top-level
window (DesktopInteractionManager.py lines 31-87): handle, rectangle
position and size.  The win32 visibility/ownership/title/class filters are
external; the model's input list holds the windows that passed them, in
enumeration order. -/
structure EnumWindow where
  hwnd : ℤ
  position : ℚ × ℚ
  size : ℚ × ℚ
  deriving DecidableEq

/-- Python dict assignment `windows[hwnd] = info`: an existing key is updated
in place (keeping its insertion position), a new key is appended. -/
def dictInsert (m : List (ℤ × WindowInfo)) (k : ℤ) (v : WindowInfo) :
    List (ℤ × WindowInfo) :=
  if m.any fun p => decide (p.1 = k) then
    m.map fun p => if p.1 = k then (k, v) else p
  else m ++ [(k, v)]

/-- `DesktopInteractionManager.updateAllWindowsList`
(DesktopInteractionManager.py lines 27-90): starting from the PRIOR contents
of the class-level `windows` dict — the code never clears it — insert every
window accepted by the current enumeration, assigning `z` from the running
order counter. -/
def updateAllWindowsList (prior : List (ℤ × WindowInfo))
    (enumerated : List EnumWindow) : List (ℤ × WindowInfo) :=
  (enumerated.foldl
    (fun (acc : List (ℤ × WindowInfo) × ℕ) e =>
      (dictInsert acc.1 e.hwnd ⟨e.hwnd, e.position, e.size, acc.2⟩, acc.2 + 1))
    (prior, 0)).1

/-- Claim C9 fails on the code: the `windows` dict is never cleared, so an
entry from an earlier query survives an enumeration that does not produce
it.  With a prior snapshot holding window 1 and a current enumeration
producing no windows at all, the collection still contains window 1
afterwards.  The TODO on DesktopInteractionManager.py line 90 records that
the deletion step is missing, so the claim reflects the intended behaviour
and the code is in error. -/
theorem claim_c9 :
    (∀ e ∈ ([] : List EnumWindow), e.hwnd ≠ 1) ∧
    (1, (⟨1, (0, 0), (10, 10), 0⟩ : WindowInfo)) ∈
      updateAllWindowsList [(1, ⟨1, (0, 0), (10, 10), 0⟩)] [] := by
  constructor
  · intro e he
    exact absurd he (List.not_mem_nil e)
  · simp [updateAllWindowsList]

/-- Gravity stage of `applyPhysics` (PhysicsObject.py line 59). -/
noncomputable def gravityStep (dt : ℝ) (s : Body ℝ) : Body ℝ :=
  { s with vy := s.vy + PhysicsSettings.gravity ℝ * dt }

/-- Air-resistance stage of `applyPhysics` (PhysicsObject.py lines 62-65):
when the speed is nonzero, subtract `normalized() * min(air_force, length)`
from the velocity, where `air_force = speed² * air_resistance * dt`. -/
noncomputable def airResistanceStep (dt : ℝ) (s : Body ℝ) : Body ℝ :=
  if 0 < s.vx ^ 2 + s.vy ^ 2 then
    { s with
      vx := s.vx - s.vx / Real.sqrt (s.vx ^ 2 + s.vy ^ 2) *
        min ((s.vx ^ 2 + s.vy ^ 2) * PhysicsSettings.air_resistance ℝ * dt)
          (Real.sqrt (s.vx ^ 2 + s.vy ^ 2)),
      vy := s.vy - s.vy / Real.sqrt (s.vx ^ 2 + s.vy ^ 2) *
        min ((s.vx ^ 2 + s.vy ^ 2) * PhysicsSettings.air_resistance ℝ * dt)
          (Real.sqrt (s.vx ^ 2 + s.vy ^ 2)) }
  else s

/-- Position-update stage of `applyPhysics` (PhysicsObject.py line 69). -/
noncomputable def moveStep (dt : ℝ) (s : Body ℝ) : Body ℝ :=
  { s with px := s.px + s.vx * dt, py := s.py + s.vy * dt }

/-- Collision stage of `applyPhysics` (PhysicsObject.py lines 71-74): screen
borders first; the window surfaces only when the bottom edge was not hit and
the body is falling. -/
noncomputable def collisionsStep (scr : ScreenRect ℝ)
    (groups : List (CollisionBordersGroup ℝ)) (previous_y : ℝ) (s : Body ℝ) :
    Body ℝ × Bool :=
  let r := screenBordersCollision s scr
  if ¬ r.2 ∧ r.1.vy > 0 then windowsCollision r.1 previous_y groups else r

/-- Friction stage of `applyPhysics` (PhysicsObject.py lines 76-82), with
`copysign` modelled by the sign test on `velocity.x`. -/
noncomputable def frictionStep (dt : ℝ) (applyFriction : Bool) (s : Body ℝ) :
    Body ℝ :=
  if applyFriction then
    if |s.vx| < PhysicsSettings.friction ℝ * dt then { s with vx := 0 }
    else
      { s with
        vx := s.vx - (if 0 ≤ s.vx then PhysicsSettings.friction ℝ * dt
          else -(PhysicsSettings.friction ℝ * dt)) }
  else s

/-- Small-velocity snap stage of `applyPhysics` (PhysicsObject.py lines
84-88). -/
noncomputable def clampStep (s : Body ℝ) : Body ℝ :=
  let p := if |s.vx| < PhysicsSettings.min_velocity ℝ then { s with vx := 0 }
    else s
  if |p.vy| < PhysicsSettings.min_velocity ℝ then { p with vy := 0 } else p

/-- `PhysicsObject.applyPhysics` (PhysicsObject.py lines 57-88),
parametrised by the collision-border groups the snapshot would produce:
gravity, air resistance, explicit-Euler position update, screen and window
collision, ground friction, small-velocity snap.  `previous_y` is the
vertical position before the position update (line 68). -/
noncomputable def applyPhysics (dt : ℝ) (scr : ScreenRect ℝ)
    (groups : List (CollisionBordersGroup ℝ)) (s : Body ℝ) : Body ℝ :=
  let v := airResistanceStep dt (gravityStep dt s)
  let r := collisionsStep scr groups v.py (moveStep dt v)
  clampStep (frictionStep dt r.2 r.1)

theorem airResistanceStep_zero_dt (s : Body ℝ) : airResistanceStep 0 s = s := by
  unfold airResistanceStep
  by_cases h : 0 < s.vx ^ 2 + s.vy ^ 2
  · rw [if_pos h]
    have hmin : min ((s.vx ^ 2 + s.vy ^ 2) * PhysicsSettings.air_resistance ℝ * 0)
        (Real.sqrt (s.vx ^ 2 + s.vy ^ 2)) = 0 := by
      rw [mul_zero]
      exact min_eq_left (Real.sqrt_nonneg _)
    ext <;> simp [hmin]
  · rw [if_neg h]

theorem windowsCollision_no_move {K : Type} [LinearOrderedField K]
    (s : Body K) (groups : List (CollisionBordersGroup K)) :
    windowsCollision s s.py groups = (s, false) := by
  induction groups with
  | nil => rfl
  | cons g gs ih =>
    rw [windowsCollision, if_neg, ih]
    rintro ⟨h₁, h₂⟩
    exact absurd (lt_of_le_of_lt h₂ h₁) (lt_irrefl _)

/-- Claim C6, counterexample: `applyPhysics` with `dt = 0` is not a no-op for
every body state — a body standing beyond the left screen edge is clamped to
the edge even on a zero-length tick. -/
theorem claim_c6_counterexample :
    applyPhysics 0 ⟨1000, 800⟩ [] (⟨-5, 5, 0, 0, 50, 50⟩ : Body ℝ) ≠
      (⟨-5, 5, 0, 0, 50, 50⟩ : Body ℝ) := by
  intro h
  have hpx := congrArg Body.px h
  have hval : applyPhysics 0 ⟨1000, 800⟩ [] (⟨-5, 5, 0, 0, 50, 50⟩ : Body ℝ) =
      (⟨0, 5, 0, 0, 50, 50⟩ : Body ℝ) := by
    unfold applyPhysics gravityStep
    norm_num [airResistanceStep_zero_dt]
    unfold moveStep collisionsStep
    norm_num [screenBordersCollision_unfold, PhysicsSettings.bounce_damping]
    unfold frictionStep clampStep PhysicsSettings.min_velocity
    norm_num
  rw [hval] at hpx
  norm_num at hpx

/-- Claim C6, amended: a zero time step is a no-op provided the body is
inside the screen (so no boundary clamp fires) and each velocity component is
either zero or at least `min_velocity` in magnitude (so the small-velocity
snap does not fire); gravity, air resistance, the position update and the
window scan all reduce to the identity at `dt = 0`. -/
theorem claim_c6 (scr : ScreenRect ℝ) (groups : List (CollisionBordersGroup ℝ))
    (s : Body ℝ)
    (hx0 : 0 ≤ s.px) (hxw : s.px + s.sx ≤ scr.width)
    (hy0 : 0 ≤ s.py) (hyh : s.py + s.sy ≤ scr.height)
    (hvx : s.vx = 0 ∨ PhysicsSettings.min_velocity ℝ ≤ |s.vx|)
    (hvy : s.vy = 0 ∨ PhysicsSettings.min_velocity ℝ ≤ |s.vy|) :
    applyPhysics 0 scr groups s = s := by
  have hg : gravityStep 0 s = s := by
    unfold gravityStep
    ext <;> simp
  have hm : moveStep 0 s = s := by
    unfold moveStep
    ext <;> simp
  have hsc : screenBordersCollision s scr = (s, false) := by
    rw [screenBordersCollision_unfold]
    simp [not_lt.mpr hx0, not_lt.mpr hxw, not_lt.mpr hy0, not_lt.mpr hyh]
  have hcol : collisionsStep scr groups s.py s = (s, false) := by
    unfold collisionsStep
    rw [hsc]
    by_cases hv : s.vy > 0
    · rw [if_pos ⟨by simp, hv⟩]
      exact windowsCollision_no_move s groups
    · rw [if_neg (by rintro ⟨-, h⟩; exact hv h)]
  have hvx' : (if |s.vx| < PhysicsSettings.min_velocity ℝ then
      { s with vx := 0 } else s) = s := by
    rcases hvx with h | h
    · rw [if_pos (by rw [h]; simp [PhysicsSettings.min_velocity])]
      ext <;> simp [h]
    · rw [if_neg (not_lt.mpr h)]
  have hcl : clampStep s = s := by
    simp only [clampStep]
    rw [hvx']
    rcases hvy with h | h
    · rw [if_pos (by rw [h]; simp [PhysicsSettings.min_velocity])]
      ext <;> simp [h]
    · rw [if_neg (not_lt.mpr h)]
  simp only [applyPhysics]
  rw [hg, airResistanceStep_zero_dt, hm, hcol]
  simp only [frictionStep, Bool.false_eq_true, if_false]
  exact hcl

theorem claim_c6_witness :
    applyPhysics 0 ⟨1000, 800⟩ [] (⟨5, 5, 0, 0, 50, 50⟩ : Body ℝ) =
      (⟨5, 5, 0, 0, 50, 50⟩ : Body ℝ) :=
  claim_c6 ⟨1000, 800⟩ [] (⟨5, 5, 0, 0, 50, 50⟩ : Body ℝ)
    (by norm_num) (by norm_num) (by norm_num) (by norm_num)
    (Or.inl rfl) (Or.inl rfl)

/-- Screen of the C8 scenario: 1000 × 800. -/
def c8Screen : ScreenRect ℝ := ⟨1000, 800⟩

/-- Starting body of the C8 scenario: 50 × 50 at (475, 0), at rest. -/
def c8Start : Body ℝ := ⟨475, 0, 0, 0, 50, 50⟩

/-- One tick of the C8 scenario: `applyPhysics` with `dt = 1/50` and an empty
window snapshot. -/
noncomputable def c8Step (s : Body ℝ) : Body ℝ :=
  applyPhysics (1 / 50) c8Screen [] s

/-- The trajectory of the C8 scenario. -/
noncomputable def traj : ℕ → Body ℝ
  | 0 => c8Start
  | n + 1 => c8Step (traj n)

/-- Vertical velocity after the gravity and air-resistance stages of one C8
tick, as a function of the incoming vertical velocity (horizontal velocity
stays zero): gravity adds `5000 · (1/50) = 100`, then drag removes
`speed² · air_resistance · dt = (v+100)²/50000`. -/
noncomputable def airvy (v : ℝ) : ℝ := (v + 100) - (v + 100) ^ 2 / 50000

/-- Floor contact of the C8 scenario during the tick taken from `traj n`: the
updated bottom edge would pass `800`, i.e. the updated `y` passes `750`. -/
noncomputable def contactC8 (n : ℕ) : Prop :=
  750 < (traj n).py + airvy (traj n).vy / 50

theorem airvy_bounds {v : ℝ} (h0 : 0 ≤ v) (h1 : v ≤ 2500) :
    94 ≤ airvy v ∧ airvy v ≤ 2466 := by
  unfold airvy
  constructor
  · nlinarith [mul_nonneg (by linarith : (0:ℝ) ≤ v + 100 - 100)
      (by linarith : (0:ℝ) ≤ 49900 - (v + 100))]
  · nlinarith [mul_nonneg (by linarith : (0:ℝ) ≤ 2601 - (v + 100))
      (by linarith : (0:ℝ) ≤ 47399 - (v + 100))]

/-- Closed form of one C8 tick on a state within the scenario invariant:
either a plain fall, or the landing clamp onto `y = 750` with the damped
bounce. -/
theorem c8Step_eq (s : Body ℝ) (hpx : s.px = 475) (hvx : s.vx = 0)
    (hsx : s.sx = 50) (hsy : s.sy = 50) (hy0 : 0 ≤ s.py) (hy1 : s.py ≤ 750)
    (hv0 : 0 ≤ s.vy) (hv1 : s.vy ≤ 2500) :
    c8Step s = if s.py + airvy s.vy / 50 ≤ 750
      then (⟨475, s.py + airvy s.vy / 50, 0, airvy s.vy, 50, 50⟩ : Body ℝ)
      else (⟨475, 750, 0, -(airvy s.vy) / 2, 50, 50⟩ : Body ℝ) := by
  have hgpos : (0:ℝ) < s.vy + 100 := by linarith
  have hg2 : s.vy + 100 ≤ 2600 := by linarith
  obtain ⟨hair1, hair2⟩ := airvy_bounds hv0 hv1
  have hG : gravityStep (1/50) s = { s with vy := s.vy + 100 } := by
    unfold gravityStep PhysicsSettings.gravity
    ext <;> norm_num
  have hsqrt : Real.sqrt (s.vx ^ 2 + (s.vy + 100) ^ 2) = s.vy + 100 := by
    rw [show s.vx ^ 2 + (s.vy + 100) ^ 2 = (s.vy + 100) ^ 2 by rw [hvx]; ring]
    exact Real.sqrt_sq hgpos.le
  have hmin : min ((s.vx ^ 2 + (s.vy + 100) ^ 2) *
      PhysicsSettings.air_resistance ℝ * (1/50)) (s.vy + 100) =
      (s.vy + 100) ^ 2 / 50000 := by
    rw [show s.vx ^ 2 + (s.vy + 100) ^ 2 = (s.vy + 100) ^ 2 by rw [hvx]; ring]
    unfold PhysicsSettings.air_resistance
    rw [show (s.vy + 100) ^ 2 * (1/1000) * (1/50) = (s.vy + 100) ^ 2 / 50000 by
      ring]
    exact min_eq_left (by nlinarith)
  have hA : airResistanceStep (1/50) { s with vy := s.vy + 100 } =
      { s with vy := airvy s.vy } := by
    unfold airResistanceStep
    rw [if_pos (by simp only; nlinarith [sq_nonneg s.vx])]
    simp only
    rw [hsqrt, hmin]
    ext
    · rfl
    · rfl
    · simp only [hvx]
      ring
    · simp only
      rw [div_self hgpos.ne']
      unfold airvy
      ring
    · rfl
    · rfl
  have hM : moveStep (1/50) { s with vy := airvy s.vy } =
      { s with px := s.px + s.vx * (1/50), py := s.py + airvy s.vy * (1/50), vy := airvy s.vy } := by
    unfold moveStep
    ext <;> rfl
  have hpy_pos : ¬ (s.py + airvy s.vy * (1/50) < 0) := by
    push_neg
    nlinarith
  have hpx475 : s.px + s.vx * (1/50) = 475 := by rw [hpx, hvx]; ring
  unfold c8Step applyPhysics
  rw [hG, hA]
  simp only
  rw [hM]
  have h1 : ¬ (s.px + s.vx * (1/50) < 0) := by rw [hpx475]; norm_num
  have h2 : ¬ (s.px + s.vx * (1/50) + s.sx > 1000) := by
    rw [hpx475, hsx]; norm_num
  have hairpos : (0:ℝ) < airvy s.vy := by nlinarith
  have hair_ge1 : ¬ (|airvy s.vy| < 1) := by
    rw [abs_of_nonneg hairpos.le]; push_neg; nlinarith
  have hvx01 : |s.vx| < (1:ℝ) := by rw [hvx]; norm_num
  by_cases hcase : s.py + airvy s.vy / 50 ≤ 750
  · rw [if_pos hcase]
    have h4 : ¬ (s.py + airvy s.vy * (1/50) + s.sy > 800) := by
      rw [hsy]; push_neg; nlinarith
    have hsc : screenBordersCollision { s with px := s.px + s.vx * (1/50), py := s.py + airvy s.vy * (1/50), vy := airvy s.vy } c8Screen =
        ({ s with px := s.px + s.vx * (1/50), py := s.py + airvy s.vy * (1/50), vy := airvy s.vy }, false) := by
      rw [screenBordersCollision_unfold]
      have c1 : ¬ (({ s with px := s.px + s.vx * (1/50), py := s.py + airvy s.vy * (1/50), vy := airvy s.vy } : Body ℝ).px < 0) := h1
      have c2 : ¬ (({ s with px := s.px + s.vx * (1/50), py := s.py + airvy s.vy * (1/50), vy := airvy s.vy } : Body ℝ).px + ({ s with px := s.px + s.vx * (1/50), py := s.py + airvy s.vy * (1/50), vy := airvy s.vy } : Body ℝ).sx > c8Screen.width) := h2
      have c3 : ¬ (({ s with px := s.px + s.vx * (1/50), py := s.py + airvy s.vy * (1/50), vy := airvy s.vy } : Body ℝ).py < 0) := hpy_pos
      have c4 : ¬ (({ s with px := s.px + s.vx * (1/50), py := s.py + airvy s.vy * (1/50), vy := airvy s.vy } : Body ℝ).py + ({ s with px := s.px + s.vx * (1/50), py := s.py + airvy s.vy * (1/50), vy := airvy s.vy } : Body ℝ).sy > c8Screen.height) := h4
      simp only [if_neg c1, if_neg c2, if_neg c3, if_neg c4]
    unfold collisionsStep
    rw [hsc]
    rw [if_pos ⟨by simp, hairpos⟩]
    simp only [windowsCollision]
    unfold frictionStep
    simp only [Bool.false_eq_true, if_false]
    unfold clampStep PhysicsSettings.min_velocity
    rw [if_pos hvx01, if_neg hair_ge1]
    ext <;> simp only [hpx475, hsx, hsy] <;> ring
  · rw [if_neg hcase]
    push_neg at hcase
    have h4 : s.py + airvy s.vy * (1/50) + s.sy > 800 := by
      rw [hsy]; nlinarith
    have hsc : screenBordersCollision { s with px := s.px + s.vx * (1/50), py := s.py + airvy s.vy * (1/50), vy := airvy s.vy } c8Screen =
        ({ s with px := s.px + s.vx * (1/50), py := (800 : ℝ) - 50, vy := airvy s.vy * -(PhysicsSettings.bounce_damping ℝ) }, true) := by
      rw [screenBordersCollision_unfold]
      have c1 : ¬ (({ s with px := s.px + s.vx * (1/50), py := s.py + airvy s.vy * (1/50), vy := airvy s.vy } : Body ℝ).px < 0) := h1
      have c2 : ¬ (({ s with px := s.px + s.vx * (1/50), py := s.py + airvy s.vy * (1/50), vy := airvy s.vy } : Body ℝ).px + ({ s with px := s.px + s.vx * (1/50), py := s.py + airvy s.vy * (1/50), vy := airvy s.vy } : Body ℝ).sx > c8Screen.width) := h2
      have c3 : ¬ (({ s with px := s.px + s.vx * (1/50), py := s.py + airvy s.vy * (1/50), vy := airvy s.vy } : Body ℝ).py < 0) := hpy_pos
      have c4 : (({ s with px := s.px + s.vx * (1/50), py := s.py + airvy s.vy * (1/50), vy := airvy s.vy } : Body ℝ).py + ({ s with px := s.px + s.vx * (1/50), py := s.py + airvy s.vy * (1/50), vy := airvy s.vy } : Body ℝ).sy > c8Screen.height) := h4
      simp only [if_neg c1, if_neg c2, if_neg c3, if_pos c4]
      ext <;> simp [hsy, c8Screen]
    unfold collisionsStep
    rw [hsc]
    rw [if_neg (by simp)]
    have f1 : |s.vx| < PhysicsSettings.friction ℝ * (1/50) := by
      rw [hvx, PhysicsSettings.friction]
      norm_num
    have f2 : ¬ (|airvy s.vy * -(PhysicsSettings.bounce_damping ℝ)| <
        PhysicsSettings.min_velocity ℝ) := by
      rw [PhysicsSettings.bounce_damping, PhysicsSettings.min_velocity,
        show airvy s.vy * -(1/2 : ℝ) = -(airvy s.vy / 2) by ring, abs_neg,
        abs_of_nonneg (by nlinarith : (0:ℝ) ≤ airvy s.vy / 2)]
      push_neg
      nlinarith
    have f3 : |(0:ℝ)| < PhysicsSettings.min_velocity ℝ := by
      rw [PhysicsSettings.min_velocity]
      norm_num
    unfold frictionStep clampStep
    simp only [if_true, if_pos f1, if_pos f3, if_neg f2]
    ext <;> simp only [hpx475, hsx, hsy, PhysicsSettings.bounce_damping] <;> ring

theorem airResistanceStep_sy (dt : ℝ) (s : Body ℝ) :
    (airResistanceStep dt s).sy = s.sy := by
  unfold airResistanceStep
  split_ifs <;> rfl

theorem frictionStep_py (dt : ℝ) (b : Bool) (s : Body ℝ) :
    (frictionStep dt b s).py = s.py := by
  unfold frictionStep
  split_ifs <;> rfl

theorem frictionStep_sy (dt : ℝ) (b : Bool) (s : Body ℝ) :
    (frictionStep dt b s).sy = s.sy := by
  unfold frictionStep
  split_ifs <;> rfl

theorem clampStep_py (s : Body ℝ) : (clampStep s).py = s.py := by
  simp only [clampStep]
  split_ifs <;> rfl

theorem clampStep_sy (s : Body ℝ) : (clampStep s).sy = s.sy := by
  simp only [clampStep]
  split_ifs <;> rfl

theorem screenBordersCollision_fst_sy (s : Body ℝ) (scr : ScreenRect ℝ) :
    ((screenBordersCollision s scr).1).sy = s.sy := by
  rw [screenBordersCollision_unfold]

theorem screenBordersCollision_py_le (s : Body ℝ) (scr : ScreenRect ℝ)
    (h : 0 ≤ scr.height - s.sy) :
    ((screenBordersCollision s scr).1).py ≤ scr.height - s.sy := by
  rw [screenBordersCollision_unfold]
  show (if s.py < 0 then 0
    else if s.py + s.sy > scr.height then scr.height - s.sy else s.py) ≤
      scr.height - s.sy
  split_ifs with h1 h2
  · exact h
  · exact le_refl _
  · push_neg at h2
    linarith

theorem collisionsStep_nil_fst (scr : ScreenRect ℝ) (prev : ℝ) (s : Body ℝ) :
    (collisionsStep scr [] prev s).1 = (screenBordersCollision s scr).1 := by
  simp only [collisionsStep]
  split_ifs with h
  · simp [windowsCollision]
  · rfl

/-- With no window surfaces, every `applyPhysics` tick leaves the body's
bottom at or above the screen floor. -/
theorem applyPhysics_nil_py_le (dt : ℝ) (scr : ScreenRect ℝ) (s : Body ℝ)
    (h : 0 ≤ scr.height - s.sy) :
    (applyPhysics dt scr [] s).py ≤ scr.height - s.sy := by
  simp only [applyPhysics]
  rw [clampStep_py, frictionStep_py, collisionsStep_nil_fst]
  have hsy : (moveStep dt (airResistanceStep dt (gravityStep dt s))).sy =
      s.sy := by
    show (airResistanceStep dt (gravityStep dt s)).sy = s.sy
    rw [airResistanceStep_sy]
    rfl
  have := screenBordersCollision_py_le
    (moveStep dt (airResistanceStep dt (gravityStep dt s))) scr
    (by rw [hsy]; exact h)
  rwa [hsy] at this

theorem applyPhysics_nil_sy (dt : ℝ) (scr : ScreenRect ℝ) (s : Body ℝ) :
    (applyPhysics dt scr [] s).sy = s.sy := by
  simp only [applyPhysics]
  rw [clampStep_sy, frictionStep_sy, collisionsStep_nil_fst,
    screenBordersCollision_fst_sy]
  show (airResistanceStep dt (gravityStep dt s)).sy = s.sy
  rw [airResistanceStep_sy]
  rfl

theorem traj_sy : ∀ n, (traj n).sy = 50
  | 0 => rfl
  | n + 1 => by
    show (applyPhysics (1/50) c8Screen [] (traj n)).sy = 50
    rw [applyPhysics_nil_sy]
    exact traj_sy n

/-- The C8 scenario invariant while no floor contact has happened yet. -/
def PreC8 (s : Body ℝ) : Prop :=
  s.px = 475 ∧ s.vx = 0 ∧ s.sx = 50 ∧ s.sy = 50 ∧
  0 ≤ s.py ∧ s.py ≤ 750 ∧ 0 ≤ s.vy ∧ s.vy ≤ 2500

theorem c8_invariant :
    ∀ n, (∀ m, m < n → ¬ contactC8 m) →
      PreC8 (traj n) ∧ (1 ≤ n → 94 ≤ (traj n).vy) ∧
      (3/2 : ℝ) * n ≤ (traj n).py := by
  intro n
  induction n with
  | zero =>
    intro _
    refine ⟨?_, fun h => absurd h (by norm_num), ?_⟩
    · show PreC8 c8Start
      unfold PreC8 c8Start
      norm_num
    · norm_num [traj, c8Start]
  | succ n ih =>
    intro hno
    obtain ⟨hpre, hvy94, hgrow⟩ := ih fun m hm => hno m (Nat.lt_succ_of_lt hm)
    obtain ⟨hpx, hvx, hsx, hsy, hy0, hy1, hv0, hv1⟩ := hpre
    have hnc : (traj n).py + airvy (traj n).vy / 50 ≤ 750 := by
      have := hno n (Nat.lt_succ_self n)
      unfold contactC8 at this
      push_neg at this
      exact this
    have hstep : traj (n + 1) =
        (⟨475, (traj n).py + airvy (traj n).vy / 50, 0,
          airvy (traj n).vy, 50, 50⟩ : Body ℝ) := by
      show c8Step (traj n) = _
      rw [c8Step_eq (traj n) hpx hvx hsx hsy hy0 hy1 hv0 hv1, if_pos hnc]
    obtain ⟨ha1, ha2⟩ := airvy_bounds hv0 hv1
    rw [hstep]
    refine ⟨⟨rfl, rfl, rfl, rfl, by norm_num; nlinarith, hnc, by norm_num; nlinarith, by norm_num; nlinarith⟩, fun _ => by norm_num; nlinarith, ?_⟩
    show (3/2 : ℝ) * (n + 1 : ℕ) ≤ (traj n).py + airvy (traj n).vy / 50
    push_cast
    nlinarith

theorem c8_contact_exists : ∃ n, contactC8 n := by
  by_contra hno
  push_neg at hno
  have h := c8_invariant 501 fun m _ => hno m
  have h1 : (3/2 : ℝ) * (501 : ℕ) ≤ (traj 501).py := h.2.2
  have h2 : (traj 501).py ≤ 750 := h.1.2.2.2.2.2.1
  norm_num at h1
  linarith

theorem contactC8_not_zero : ¬ contactC8 0 := by
  unfold contactC8
  have h0 : traj 0 = c8Start := rfl
  rw [h0]
  unfold c8Start airvy
  norm_num

/-- Claim C8: in the scenario screen 1000×800, body 50×50 at (475, 0) at
rest, gravity 5000, dt = 0.02, empty window snapshot: after every step the
body's `y` stays at or below 750; there is a first floor contact `N`; before
it `y` strictly increases every step; and across the contact step the
vertical velocity flips from positive to negative. -/
theorem claim_c8 :
    (∀ n, 1 ≤ n → (traj n).py ≤ 750) ∧
    ∃ N, contactC8 N ∧ (∀ m, m < N → ¬ contactC8 m) ∧
      (∀ m, m < N → (traj m).py < (traj (m + 1)).py) ∧
      0 < (traj N).vy ∧ (traj (N + 1)).vy < 0 := by
  constructor
  · intro n hn
    obtain ⟨k, rfl⟩ : ∃ k, n = k + 1 :=
      ⟨n - 1, (Nat.succ_pred_eq_of_pos hn).symm⟩
    have hsy : (traj k).sy = 50 := traj_sy k
    have h := applyPhysics_nil_py_le (1/50) c8Screen (traj k)
      (by rw [hsy]; show (0:ℝ) ≤ 800 - 50; norm_num)
    rw [hsy] at h
    have h2 : (traj (k + 1)).py ≤ c8Screen.height - 50 := h
    rw [show c8Screen.height = 800 from rfl] at h2
    linarith
  · haveI : DecidablePred contactC8 := Classical.decPred _
    have hex : ∃ n, contactC8 n := c8_contact_exists
    refine ⟨Nat.find hex, Nat.find_spec hex,
      fun m hm => Nat.find_min hex hm, ?_, ?_, ?_⟩
    · intro m hm
      have hinv := c8_invariant m fun k hk => Nat.find_min hex (hk.trans hm)
      obtain ⟨hpx, hvx, hsx, hsy, hy0, hy1, hv0, hv1⟩ := hinv.1
      have hnc : (traj m).py + airvy (traj m).vy / 50 ≤ 750 := by
        have := Nat.find_min hex hm
        unfold contactC8 at this
        push_neg at this
        exact this
      have hstep : traj (m + 1) =
          (⟨475, (traj m).py + airvy (traj m).vy / 50, 0,
            airvy (traj m).vy, 50, 50⟩ : Body ℝ) := by
        show c8Step (traj m) = _
        rw [c8Step_eq (traj m) hpx hvx hsx hsy hy0 hy1 hv0 hv1, if_pos hnc]
      rw [hstep]
      show (traj m).py < (traj m).py + airvy (traj m).vy / 50
      obtain ⟨ha1, -⟩ := airvy_bounds hv0 hv1
      linarith
    · have hN1 : 1 ≤ Nat.find hex := by
        rcases Nat.eq_zero_or_pos (Nat.find hex) with h | h
        · exact absurd (h ▸ Nat.find_spec hex) contactC8_not_zero
        · exact h
      have hinv := c8_invariant (Nat.find hex) fun k hk => Nat.find_min hex hk
      have := hinv.2.1 hN1
      linarith
    · have hinv := c8_invariant (Nat.find hex) fun k hk => Nat.find_min hex hk
      obtain ⟨hpx, hvx, hsx, hsy, hy0, hy1, hv0, hv1⟩ := hinv.1
      have hc : 750 < (traj (Nat.find hex)).py +
          airvy (traj (Nat.find hex)).vy / 50 := Nat.find_spec hex
      have hstep : traj (Nat.find hex + 1) =
          (⟨475, 750, 0, -(airvy (traj (Nat.find hex)).vy) / 2, 50, 50⟩ :
            Body ℝ) := by
        show c8Step (traj (Nat.find hex)) = _
        rw [c8Step_eq (traj (Nat.find hex)) hpx hvx hsx hsy hy0 hy1 hv0 hv1,
          if_neg (not_le.mpr hc)]
      rw [hstep]
      show -(airvy (traj (Nat.find hex)).vy) / 2 < 0
      obtain ⟨ha1, -⟩ := airvy_bounds hv0 hv1
      linarith

theorem claim_c8_witness : (traj 1).py ≤ 750 := claim_c8.1 1 le_rfl
